import Mathlib

/-!
Verification development for the Monad block-execution run loop
(`cmd/monad/runloop_monad_ethblocks.cpp`).

The per-block pipeline `process_monad_block` and the driver
`runloop_monad_ethblocks` are embedded shallowly.  External collaborators
(the chain's static validators, the execution engine, the versioned state
store's header reads, and the keccak/rlp header hash) are modelled as an
environment of function parameters; the store, the block-hash buffer and
an event trace recording the order of the pipeline's observable actions
form an explicit state threaded through the pipeline.
-/

namespace MonadEth

/-- Account address (`Address`, 20 bytes), modelled as a natural number.
The default-constructed `Address{}` is `0`. -/
abbrev Address := Nat

/-- 32-byte value (`bytes32_t`), modelled as a natural number. -/
abbrev Hash := Nat

/-- Block identifier (`bytes32_t`), modelled as a natural number. -/
abbrev BlockId := Nat

/-- Execution receipt, opaque to this core. -/
abbrev Receipt := Nat

/-- `2^64`, the modulus of the `uint64_t` counters in the run loop. -/
def UINT64_MOD : Nat := 2 ^ 64

/-- `uint64_t` wrap-around of `n - 1` (used for
`block.header.number - 1`). -/
def pred64 (n : Nat) : Nat := (n + (UINT64_MOD - 1)) % UINT64_MOD

/-- A transaction.  Cryptographic recovery is embedded by carrying the
recovery results: `sender` is the result of sender recovery (`none` when
the signature fails to recover), `authorities` the per-authorization
recovery results. `payload` stands for the remaining opaque content. -/
structure Transaction where
  sender : Option Address
  authorities : List (Option Address)
  payload : Nat
  deriving DecidableEq, Repr

/-- The block header fields this core reads or writes. -/
structure BlockHeader where
  number : Nat
  timestamp : Nat
  parent_hash : Hash
  base_fee_per_gas : Option Nat
  gas_used : Nat
  state_root : Nat
  deriving DecidableEq, Repr

/-- A block as read from the block archive (`BlockDb`). -/
structure Block where
  header : BlockHeader
  transactions : List Transaction
  ommers : List Nat
  withdrawals : List Nat
  deriving DecidableEq, Repr

/-- Error result (`Result<...>` error values). `missingSender` is
`TransactionError::MissingSender`; the other constructors carry the typed
errors of the external validators and the execution engine. -/
inductive Err where
  | missingSender
  | headerInvalid (code : Nat)
  | blockInvalid (code : Nat)
  | bodyInvalid (code : Nat)
  | execError (code : Nat)
  | outputMismatch (code : Nat)
  deriving DecidableEq, Repr

/-- Record of one `block_state.commit(...)` call: the arguments the
pipeline passes to the state store. -/
structure CommitRec where
  block_id : BlockId
  header : BlockHeader
  receipts : List Receipt
  senders : List Address
  txCount : Nat
  deriving DecidableEq, Repr

/-- Observable state of the versioned state store `Db`, as driven by this
core: the current read scope (`set_block_and_prefix`), and the ordered
lists of `commit`, `finalize(number, id)` and
`update_verified_block(number)` calls. -/
structure DbState where
  scope : Option (Nat × BlockId)
  commits : List CommitRec
  finalizes : List (Nat × BlockId)
  verifiedUpdates : List Nat
  deriving DecidableEq, Repr

/-- Events marking the pipeline's actions, in source order, used to state
the temporal claims. -/
inductive Event where
  | validateHeader
  | validateBlock
  | recoverSenders
  | recoverAuthorities
  | validateBody
  | setScope
  | overwriteParentHash
  | executeBlock
  | commitState
  | validateOutput
  | finalizeBlock
  | updateVerified
  | setBufHash
  deriving DecidableEq, Repr

/-- State threaded through the pipeline: the store, the block-hash buffer
(the ordered `block_hash_buffer.set(number, hash)` calls), and the event
trace. -/
structure ProcState where
  db : DbState
  buf : List (Nat × Hash)
  trace : List Event
  deriving DecidableEq, Repr

/-- Append one event to the trace. -/
def pushEvent (st : ProcState) (e : Event) : ProcState :=
  { st with trace := st.trace ++ [e] }

/-- External collaborators of the pipeline, as consumed interfaces:
the chain's static validators, the header hash
(`keccak256(rlp::encode_block_header(...))`), the store's canonical
header read (a function of the whole store state), the execution engine,
and the post-commit header validator `validate_output_header`. -/
structure Env where
  static_validate_header : BlockHeader → Except Err Unit
  static_validate_block : Block → Except Err Unit
  static_validate_monad_body : List Address → List Transaction → Except Err Unit
  header_hash : BlockHeader → Hash
  read_eth_header : DbState → BlockHeader
  execute_block : Block → List Address → List (List (Option Address)) →
      Option (Finset Address) → Option (Finset Address) → Finset Address →
      DbState → List (Nat × Hash) → Except Err (List Receipt)
  validate_output_header : BlockHeader → BlockHeader → Except Err Unit

/-- `recover_senders(block.transactions, priority_pool)`: per-transaction
sender recovery (parallel in the source, order-preserving results). -/
def recover_senders (txs : List Transaction) : List (Option Address) :=
  txs.map (fun tx => tx.sender)

/-- `recover_authorities(block.transactions, priority_pool)`:
per-transaction authority recovery. -/
def recover_authorities (txs : List Transaction) : List (List (Option Address)) :=
  txs.map (fun tx => tx.authorities)

/-- The sender-collection loop of `process_monad_block` (lines 114-122):
walk the recovery results in order; on the first transaction whose sender
failed to recover, return `TransactionError::MissingSender`. -/
def build_senders : List (Option Address) → Except Err (List Address)
  | [] => .ok []
  | some a :: rest => (build_senders rest).map (fun l => a :: l)
  | none :: _ => .error .missingSender

/-- Insertion loop over the senders vector
(lines 124-126, also 317-319 and 350-352). -/
def insert_addresses (s : Finset Address) (l : List Address) : Finset Address :=
  l.foldl (fun s a => insert a s) s

/-- Inner loop over one transaction's recovered authorities: only present
authorities are inserted (lines 129-133). -/
def insert_present (s : Finset Address) (l : List (Option Address)) : Finset Address :=
  l.foldl
    (fun s oa => match oa with | some a => insert a s | none => s) s

/-- Outer loop over the recovered authorities of all transactions
(lines 127-134, also 320-327 and 353-360). -/
def insert_authorities (s : Finset Address)
    (auths : List (List (Option Address))) : Finset Address :=
  auths.foldl insert_present s

/-- The per-block `senders_and_authorities` set (lines 123-134): all
recovered senders, then all present recovered authorities.  The same two
insertion loops build the seeded parent/grandparent sets at startup
(lines 316-327 and 349-360). -/
def build_address_set (senders : List Address)
    (auths : List (List (Option Address))) : Finset Address :=
  insert_authorities (insert_addresses ∅ senders) auths

/-- `db.set_block_and_prefix(block.header.number - 1, parent_block_id)`
(line 167), with the `uint64_t` wrap-around of the subtraction. -/
def scopedDb (db : DbState) (number : Nat) (parent_block_id : BlockId) : DbState :=
  { db with scope := some (pred64 number, parent_block_id) }

/-- The parent hash recomputed from the committed parent header read back
from the store (lines 168-169):
`keccak256(rlp::encode_block_header(db.read_eth_header()))`. -/
def recomputed_parent_hash (env : Env) (db : DbState) (number : Nat)
    (parent_block_id : BlockId) : Hash :=
  env.header_hash (env.read_eth_header (scopedDb db number parent_block_id))

/-- The block header after the late parent-hash overwrite (line 168). -/
def executed_header (env : Env) (block : Block) (parent_block_id : BlockId)
    (db : DbState) : BlockHeader :=
  { block.header with
      parent_hash := recomputed_parent_hash env db block.header.number parent_block_id }

/-- The block actually handed to the execution engine: the input block
with its parent-hash field overwritten. -/
def executed_block (env : Env) (block : Block) (parent_block_id : BlockId)
    (db : DbState) : Block :=
  { block with header := executed_header env block parent_block_id db }

/-- The store after `block_state.commit(block_id, ...)` (lines 205-213),
given the scoped store. -/
def dbAfterCommit (env : Env) (block : Block) (block_id : BlockId)
    (parent_block_id : BlockId) (senders : List Address)
    (receipts : List Receipt) (db : DbState) : DbState :=
  let db1 := scopedDb db block.header.number parent_block_id
  { db1 with
      commits := db1.commits ++
        [{ block_id := block_id,
           header := executed_header env block parent_block_id db,
           receipts := receipts,
           senders := senders,
           txCount := block.transactions.length }] }

/-- The store's canonical header re-read after commit (line 224). -/
def output_header_of (env : Env) (block : Block) (block_id : BlockId)
    (parent_block_id : BlockId) (senders : List Address)
    (receipts : List Receipt) (db : DbState) : BlockHeader :=
  env.read_eth_header (dbAfterCommit env block block_id parent_block_id senders receipts db)

/-- The trace appended by one fully successful run of the pipeline,
in source order. -/
def processTraceOk : List Event :=
  [.validateHeader, .validateBlock, .recoverSenders, .recoverAuthorities,
   .validateBody, .setScope, .overwriteParentHash, .executeBlock,
   .commitState, .validateOutput, .finalizeBlock, .updateVerified,
   .setBufHash]

/-- `process_monad_block` (lines 86-269): validate the header and block,
recover senders and authorities (aborting with `MissingSender` when a
sender fails to recover), build the `senders_and_authorities` set,
validate the body, scope the store to the parent, overwrite the block's
parent-hash field with the hash recomputed from the committed parent
header, execute, commit, re-read and validate the output header, then
finalize, advance the verified watermark and append the block hash to the
block-hash buffer.  Returns the (possibly mutated) block and the
`senders_and_authorities_out` set on success. -/
def process_monad_block (env : Env) (block : Block) (block_id : BlockId)
    (parent_block_id : BlockId) (enable_tracing : Bool)
    (grandparent_sa parent_sa : Option (Finset Address)) (st : ProcState) :
    Except Err (Block × Finset Address) × ProcState :=
  -- Block input validation (lines 102-103)
  let st := pushEvent st .validateHeader
  match env.static_validate_header block.header with
  | .error e => (.error e, st)
  | .ok _ =>
  let st := pushEvent st .validateBlock
  match env.static_validate_block block with
  | .error e => (.error e, st)
  | .ok _ =>
  -- Sender and authority recovery (lines 106-122)
  let recovered_senders := recover_senders block.transactions
  let recovered_authorities := recover_authorities block.transactions
  let st := pushEvent (pushEvent st .recoverSenders) .recoverAuthorities
  match build_senders recovered_senders with
  | .error e => (.error e, st)
  | .ok senders =>
  -- senders_and_authorities (lines 123-134)
  let senders_and_authorities := build_address_set senders recovered_authorities
  -- static_validate_monad_body (lines 135-136)
  let st := pushEvent st .validateBody
  match env.static_validate_monad_body senders block.transactions with
  | .error e => (.error e, st)
  | .ok _ =>
  -- Call tracer setup (lines 139-153) allocates tracers selected by
  -- enable_tracing; no observable effect on the modelled state.
  -- Scope the store and overwrite the parent hash (lines 167-169)
  let db0 := st.db
  let db1 := scopedDb db0 block.header.number parent_block_id
  let st := { pushEvent st .setScope with db := db1 }
  let block1 := executed_block env block parent_block_id db0
  let st := pushEvent (pushEvent st .overwriteParentHash) .executeBlock
  -- Core execution (lines 171-200)
  match env.execute_block block1 senders recovered_authorities
      grandparent_sa parent_sa senders_and_authorities db1 st.buf with
  | .error e => (.error e, st)
  | .ok receipts =>
  -- Database commit of state changes (lines 203-213)
  let db2 := dbAfterCommit env block block_id parent_block_id senders receipts db0
  let st := { pushEvent st .commitState with db := db2 }
  -- Post-commit validation of the output header (lines 224-225)
  let output_header :=
    output_header_of env block block_id parent_block_id senders receipts db0
  let st := pushEvent st .validateOutput
  match env.validate_output_header (executed_header env block parent_block_id db0)
      output_header with
  | .error e => (.error e, st)
  | .ok _ =>
  -- Commit prologue (lines 229-233): finalize, advance the verified
  -- watermark, append the block hash to the circular buffer.
  let db3 := { db2 with
      finalizes := db2.finalizes ++ [(block.header.number, block_id)],
      verifiedUpdates := db2.verifiedUpdates ++ [block.header.number] }
  let eth_block_hash := env.header_hash output_header
  let st := { st with
      db := db3,
      buf := st.buf ++ [(block.header.number, eth_block_hash)],
      trace := st.trace ++ [.finalizeBlock, .updateVerified, .setBufHash] }
  (.ok (block1, senders_and_authorities), st)

/-- The AddressSet a block contributes to the generation window: its
recovered senders (a failed recovery leaving the default-constructed zero
address, as in the default-initialized senders vector of lines 310-315
and 340-348) and its present recovered authorities. When every sender
recovers — the only case in which `process_monad_block` proceeds — this
is exactly the pipeline's `senders_and_authorities` set. -/
def block_address_set (b : Block) : Finset Address :=
  build_address_set (b.transactions.map (fun tx => tx.sender.getD 0))
    (recover_authorities b.transactions)

/-- Startup seeding of the generation window (lines 300-363): for a
resume height above 1 the parent set is re-derived from block
`block_num - 1`, and above 2 the grandparent set from `block_num - 2`;
otherwise the slots stay empty.  Returns (parent, grandparent). -/
def seedWindow (block_db : Nat → Block) (block_num : Nat) :
    Option (Finset Address) × Option (Finset Address) :=
  if 1 < block_num then
    (some (block_address_set (block_db (block_num - 1))),
     if 2 < block_num then some (block_address_set (block_db (block_num - 2)))
     else none)
  else (none, none)

deriving instance DecidableEq for Except

/-- Snapshot of one loop iteration: the height dispatched to
`process_monad_block` together with the parent and grandparent AddressSets
passed to it. -/
structure Snap where
  height : Nat
  parentSA : Option (Finset Address)
  grandparentSA : Option (Finset Address)
  deriving DecidableEq

/-- Result of the run loop: the returned
`Result<std::pair<uint64_t, uint64_t>>` (cumulative transaction count and
gas), the value of `block_num` when the loop exited, the per-iteration
snapshots, and the final store/buffer/trace state. -/
structure LoopOut where
  res : Except Err (Nat × Nat)
  lastBlockNum : Nat
  snaps : List Snap
  st : ProcState
  deriving DecidableEq

/-- The `while` loop of `runloop_monad_ethblocks` (lines 365-424): while
`block_num <= end_block_num && stop == 0`, fetch the block, form
`block_id = bytes32_t{block.header.number}`, dispatch to
`process_monad_block` (propagating its error), accumulate the `uint64_t`
transaction and gas counters, advance the generation window
(grandparent := parent, parent := this block's set), and step to the next
height.  `stop` gives the stop flag's value observed at each block
boundary.  The first argument is recursion fuel; the driver passes
`end_block_num + 1 - block_num`, which bounds the iterations of the
source's `while` loop, so fuel exhaustion coincides exactly with the
loop condition `block_num <= end_block_num` turning false and both
exits return the same accumulated result. -/
def runloopAux (env : Env) (block_db : Nat → Block) (stop : Nat → Bool)
    (end_block_num : Nat) (enable_tracing : Bool) :
    Nat → Nat → BlockId → Option (Finset Address) → Option (Finset Address) →
    Nat → Nat → List Snap → ProcState → LoopOut
  | 0, block_num, _, _, _, ntxs, total_gas, snaps, st =>
      ⟨.ok (ntxs, total_gas), block_num, snaps, st⟩
  | fuel + 1, block_num, parent_block_id, parent_sa, grandparent_sa,
      ntxs, total_gas, snaps, st =>
    if block_num ≤ end_block_num ∧ stop block_num = false then
      let block := block_db block_num
      let block_id : BlockId := block.header.number
      let snaps1 := snaps ++ [⟨block_num, parent_sa, grandparent_sa⟩]
      match process_monad_block env block block_id parent_block_id
          enable_tracing grandparent_sa parent_sa st with
      | (.error e, st1) => ⟨.error e, block_num, snaps1, st1⟩
      | (.ok v, st1) =>
          runloopAux env block_db stop end_block_num enable_tracing
            fuel (block_num + 1) block_id
            (some v.2) parent_sa
            ((ntxs + block.transactions.length) % UINT64_MOD)
            ((total_gas + block.header.gas_used) % UINT64_MOD)
            snaps1 st1
    else
      ⟨.ok (ntxs, total_gas), block_num, snaps, st⟩

/-- `runloop_monad_ethblocks` (lines 275-431): seed the generation window
from the archive at the stored finalized height, run the loop from that
height, and on normal exit store the final `block_num` back into the
`finalized_block_num` in-out parameter (line 429); on an error
propagated out of `process_monad_block` the early return leaves the
parameter unchanged.  Returns the loop outcome and the final value of
`finalized_block_num`. -/
def runloop_monad_ethblocks (env : Env) (block_db : Nat → Block)
    (stop : Nat → Bool) (finalized_block_num end_block_num : Nat)
    (enable_tracing : Bool) (st : ProcState) : LoopOut × Nat :=
  let w := seedWindow block_db finalized_block_num
  let out := runloopAux env block_db stop end_block_num enable_tracing
      (end_block_num + 1 - finalized_block_num)
      finalized_block_num 0 w.1 w.2 0 0 [] st
  (out,
   match out.res with
   | .ok _ => out.lastBlockNum
   | .error _ => finalized_block_num)

/-- The content-derived block identifier used by the run loop
(line 372): `bytes32_t{block.header.number}`. -/
def blockIdOf (b : Block) : BlockId := b.header.number

/-! ## Normal forms of the set-building loops -/

theorem insert_addresses_eq (l : List Address) (s : Finset Address) :
    insert_addresses s l = s ∪ l.toFinset := by
  induction l generalizing s with
  | nil => simp [insert_addresses]
  | cons a t ih =>
      have h0 : insert_addresses s (a :: t) = insert_addresses (insert a s) t := rfl
      rw [h0, ih]
      ext x
      simp only [Finset.mem_union, Finset.mem_insert, List.toFinset_cons,
        List.mem_toFinset]
      tauto

theorem insert_present_eq (l : List (Option Address)) (s : Finset Address) :
    insert_present s l = s ∪ (l.filterMap id).toFinset := by
  induction l generalizing s with
  | nil => simp [insert_present]
  | cons oa t ih =>
      cases oa with
      | none =>
          have h0 : insert_present s (none :: t) = insert_present s t := rfl
          rw [h0, ih]
          simp
      | some a =>
          have h0 : insert_present s (some a :: t) = insert_present (insert a s) t := rfl
          rw [h0, ih]
          ext x
          simp only [Finset.mem_union, Finset.mem_insert, List.filterMap_cons,
            List.toFinset_cons, List.mem_toFinset, id]
          tauto

theorem insert_authorities_eq (auths : List (List (Option Address)))
    (s : Finset Address) :
    insert_authorities s auths = s ∪ (auths.flatten.filterMap id).toFinset := by
  induction auths generalizing s with
  | nil => simp [insert_authorities]
  | cons l t ih =>
      have h0 : insert_authorities s (l :: t) = insert_authorities (insert_present s l) t := rfl
      rw [h0, ih, insert_present_eq]
      ext x
      simp only [Finset.mem_union, List.flatten_cons, List.filterMap_append,
        List.toFinset_append, List.mem_toFinset]
      tauto

/-- The `senders_and_authorities` set is the set of recovered senders
together with the set of present recovered authorities. -/
theorem build_address_set_eq (senders : List Address)
    (auths : List (List (Option Address))) :
    build_address_set senders auths =
      senders.toFinset ∪ (auths.flatten.filterMap id).toFinset := by
  rw [build_address_set, insert_authorities_eq, insert_addresses_eq]
  simp

/-! ## The sender-collection loop -/

theorem build_senders_ok {l : List (Option Address)} {s : List Address}
    (h : build_senders l = .ok s) : s = l.map (fun oa => oa.getD 0) := by
  induction l generalizing s with
  | nil =>
      simp only [build_senders] at h
      cases h
      rfl
  | cons oa t ih =>
      cases oa with
      | none => simp [build_senders] at h
      | some a =>
          simp only [build_senders] at h
          cases ht : build_senders t with
          | error e => rw [ht] at h; simp [Except.map] at h
          | ok s0 =>
              rw [ht] at h
              simp only [Except.map] at h
              cases h
              simp [ih ht]

theorem build_senders_err {l : List (Option Address)}
    (h : ∃ oa ∈ l, oa = none) : build_senders l = .error .missingSender := by
  induction l with
  | nil => simp at h
  | cons oa t ih =>
      cases oa with
      | none => rfl
      | some a =>
          obtain ⟨x, hx, hxn⟩ := h
          rcases List.mem_cons.mp hx with h1 | h1
          · rw [h1] at hxn; cases hxn
          · have := ih ⟨x, h1, hxn⟩
            simp [build_senders, this, Except.map]

theorem build_senders_recover_ok {txs : List Transaction} {s : List Address}
    (h : build_senders (recover_senders txs) = .ok s) :
    s = txs.map (fun tx => tx.sender.getD 0) := by
  rw [build_senders_ok h, recover_senders, List.map_map]
  rfl

theorem build_senders_ok_all {l : List (Option Address)} {s : List Address}
    (h : build_senders l = .ok s) : ∀ oa ∈ l, oa ≠ none := by
  induction l generalizing s with
  | nil => simp
  | cons oa t ih =>
      cases oa with
      | none => simp [build_senders] at h
      | some a =>
          simp only [build_senders] at h
          cases ht : build_senders t with
          | error e => rw [ht] at h; simp [Except.map] at h
          | ok s0 =>
              intro x hx
              rcases List.mem_cons.mp hx with h1 | h1
              · subst h1
                simp
              · exact ih ht x h1

theorem filterMap_sender_eq {txs : List Transaction}
    (h : ∀ tx ∈ txs, tx.sender ≠ none) :
    txs.filterMap (fun tx => tx.sender)
      = txs.map (fun tx => tx.sender.getD 0) := by
  induction txs with
  | nil => rfl
  | cons tx t ih =>
      have hs := h tx (List.mem_cons_self tx t)
      cases hx : tx.sender with
      | none => exact absurd hx hs
      | some a =>
          simp only [List.filterMap_cons, List.map_cons, hx]
          rw [ih (fun tx2 ht2 => h tx2 (List.mem_cons_of_mem tx ht2))]
          rfl

/-! ## Shape lemmas for the pipeline -/

/-- On every error path of the pipeline, no finalize call, no
verified-watermark advance and no block-hash buffer insertion happen. -/
theorem process_error_no_final {env : Env} {block : Block}
    {block_id parent_block_id : BlockId} {tracing : Bool}
    {g p : Option (Finset Address)} {st : ProcState} {e : Err} {st1 : ProcState}
    (h : process_monad_block env block block_id parent_block_id tracing g p st
        = (.error e, st1)) :
    st1.db.finalizes = st.db.finalizes ∧
    st1.db.verifiedUpdates = st.db.verifiedUpdates ∧
    st1.buf = st.buf := by
  simp only [process_monad_block] at h
  repeat' split at h
  all_goals injection h with he hst
  all_goals subst hst
  all_goals cases he
  all_goals simp [pushEvent, scopedDb, dbAfterCommit]

/-- On the error paths taken before execution (validation failures and
`MissingSender`), the store is entirely untouched and the buffer
unchanged. -/
theorem process_pre_exec_error_db {env : Env} {block : Block}
    {block_id parent_block_id : BlockId} {tracing : Bool}
    {g p : Option (Finset Address)} {st : ProcState} {r} {st1 : ProcState}
    (h : process_monad_block env block block_id parent_block_id tracing g p st
        = (r, st1))
    (hm : ∃ tx ∈ block.transactions, tx.sender = none) :
    (∃ e, r = Except.error e) ∧ st1.db = st.db ∧ st1.buf = st.buf ∧
    (env.static_validate_header block.header = .ok () →
     env.static_validate_block block = .ok () →
     r = .error .missingSender) := by
  have hbs : build_senders (recover_senders block.transactions)
      = .error .missingSender := by
    obtain ⟨tx, htx, hs⟩ := hm
    exact build_senders_err ⟨tx.sender, List.mem_map_of_mem _ htx, hs⟩
  cases hv1 : env.static_validate_header block.header with
  | error e1 =>
      simp only [process_monad_block, hv1] at h
      injection h with he hst
      subst hst
      cases he
      refine ⟨⟨e1, rfl⟩, by simp [pushEvent], by simp [pushEvent], ?_⟩
      intro hx _
      exact Except.noConfusion hx
  | ok u1 =>
      cases u1
      cases hv2 : env.static_validate_block block with
      | error e2 =>
          simp only [process_monad_block, hv1, hv2] at h
          injection h with he hst
          subst hst
          cases he
          refine ⟨⟨e2, rfl⟩, by simp [pushEvent], by simp [pushEvent], ?_⟩
          intro _ hx
          exact Except.noConfusion hx
      | ok u2 =>
          cases u2
          simp only [process_monad_block, hv1, hv2, hbs] at h
          injection h with he hst
          subst hst
          cases he
          exact ⟨⟨.missingSender, rfl⟩, by simp [pushEvent], by simp [pushEvent],
            fun _ _ => rfl⟩

/-- Full inversion of a successful pipeline run: the returned block is the
input block with the recomputed parent hash, the returned AddressSet is
the block's sender/authority set, the store gains exactly one finalize
call and one verified-watermark advance for this block, the buffer gains
this block's hash, every new commit record carries this block's id and
number, and the trace extends by the success trace in source order. -/
theorem process_ok_shape {env : Env} {block : Block}
    {block_id parent_block_id : BlockId} {tracing : Bool}
    {g p : Option (Finset Address)} {st : ProcState}
    {v : Block × Finset Address} {st1 : ProcState}
    (h : process_monad_block env block block_id parent_block_id tracing g p st
        = (.ok v, st1)) :
    v.1 = executed_block env block parent_block_id st.db ∧
    v.2 = block_address_set block ∧
    st1.db.finalizes = st.db.finalizes ++ [(block.header.number, block_id)] ∧
    st1.db.verifiedUpdates = st.db.verifiedUpdates ++ [block.header.number] ∧
    (∃ hsh, st1.buf = st.buf ++ [(block.header.number, hsh)]) ∧
    (∀ c ∈ st1.db.commits, c ∈ st.db.commits ∨
      (c.block_id = block_id ∧ c.header.number = block.header.number)) ∧
    st1.trace = st.trace ++ processTraceOk := by
  cases hv1 : env.static_validate_header block.header with
  | error e1 =>
      simp only [process_monad_block, hv1] at h
      injection h with he hst
      cases he
  | ok u1 =>
  cases u1
  cases hv2 : env.static_validate_block block with
  | error e2 =>
      simp only [process_monad_block, hv1, hv2] at h
      injection h with he hst
      cases he
  | ok u2 =>
  cases u2
  cases hb : build_senders (recover_senders block.transactions) with
  | error e3 =>
      simp only [process_monad_block, hv1, hv2, hb] at h
      injection h with he hst
      cases he
  | ok senders =>
  cases hv4 : env.static_validate_monad_body senders block.transactions with
  | error e4 =>
      simp only [process_monad_block, hv1, hv2, hb, hv4] at h
      injection h with he hst
      cases he
  | ok u4 =>
  cases u4
  cases hv5 : env.execute_block (executed_block env block parent_block_id st.db)
      senders (recover_authorities block.transactions) g p
      (build_address_set senders (recover_authorities block.transactions))
      (scopedDb st.db block.header.number parent_block_id) st.buf with
  | error e5 =>
      simp only [process_monad_block, pushEvent, hv1, hv2, hb, hv4, hv5] at h
      injection h with he hst
      cases he
  | ok receipts =>
  cases hv6 : env.validate_output_header
      (executed_header env block parent_block_id st.db)
      (output_header_of env block block_id parent_block_id senders receipts st.db) with
  | error e6 =>
      simp only [process_monad_block, pushEvent, hv1, hv2, hb, hv4, hv5, hv6] at h
      injection h with he hst
      cases he
  | ok u6 =>
  cases u6
  simp only [process_monad_block, pushEvent, hv1, hv2, hb, hv4, hv5, hv6] at h
  injection h with he hst
  subst hst
  cases he
  have hsv : senders = block.transactions.map (fun tx => tx.sender.getD 0) :=
    build_senders_recover_ok hb
  refine ⟨rfl, ?_, by simp [dbAfterCommit, scopedDb],
    by simp [dbAfterCommit, scopedDb], ⟨_, rfl⟩, ?_, ?_⟩
  · rw [hsv]
    rfl
  · intro c hc
    simp only [dbAfterCommit, scopedDb, List.mem_append, List.mem_singleton] at hc
    rcases hc with hc | hc
    · exact Or.inl hc
    · subst hc
      exact Or.inr ⟨rfl, rfl⟩
  · simp [processTraceOk, List.append_assoc]

/-- Commit records only ever grow by records carrying this block's id and
number, on any path (including the path where post-commit verification
fails after the commit). -/
theorem process_commits {env : Env} {block : Block}
    {block_id parent_block_id : BlockId} {tracing : Bool}
    {g p : Option (Finset Address)} {st : ProcState} {r} {st1 : ProcState}
    (h : process_monad_block env block block_id parent_block_id tracing g p st
        = (r, st1)) :
    ∀ c ∈ st1.db.commits, c ∈ st.db.commits ∨
      (c.block_id = block_id ∧ c.header.number = block.header.number) := by
  simp only [process_monad_block] at h
  repeat' split at h
  all_goals injection h with he hst
  all_goals subst hst
  all_goals cases he
  all_goals intro c hc
  all_goals try exact Or.inl hc
  all_goals
    (simp only [pushEvent, dbAfterCommit, scopedDb, List.mem_append,
       List.mem_singleton] at hc
     rcases hc with hc | hc
     · exact Or.inl hc
     · subst hc
       exact Or.inr ⟨rfl, rfl⟩)

/-- If the pipeline fails post-commit header verification, it returns
exactly the verifier's error. -/
theorem process_output_mismatch_result {env : Env} {block : Block}
    {block_id parent_block_id : BlockId} (tracing : Bool)
    {g p : Option (Finset Address)} {st : ProcState}
    {senders : List Address} {receipts : List Receipt} {e : Err}
    (hv1 : env.static_validate_header block.header = .ok ())
    (hv2 : env.static_validate_block block = .ok ())
    (hb : build_senders (recover_senders block.transactions) = .ok senders)
    (hv4 : env.static_validate_monad_body senders block.transactions = .ok ())
    (hv5 : env.execute_block (executed_block env block parent_block_id st.db)
        senders (recover_authorities block.transactions) g p
        (build_address_set senders (recover_authorities block.transactions))
        (scopedDb st.db block.header.number parent_block_id) st.buf
        = .ok receipts)
    (hv6 : env.validate_output_header
        (executed_header env block parent_block_id st.db)
        (output_header_of env block block_id parent_block_id senders receipts st.db)
        = .error e) :
    (process_monad_block env block block_id parent_block_id tracing g p st).1
      = .error e := by
  simp only [process_monad_block, pushEvent, hv1, hv2, hb, hv4, hv5, hv6]

/-! ## Run-loop sums, windows and invariants -/

/-- Sum of the transaction counts of the blocks at heights
`start, ..., start + len - 1`. -/
def txSum (block_db : Nat → Block) (start len : Nat) : Nat :=
  ((List.range' start len).map (fun n => (block_db n).transactions.length)).sum

/-- Sum of the header `gas_used` of the blocks at heights
`start, ..., start + len - 1`. -/
def gasSum (block_db : Nat → Block) (start len : Nat) : Nat :=
  ((List.range' start len).map (fun n => (block_db n).header.gas_used)).sum

/-- The generation-window invariant at height `n`: the parent slot holds
the AddressSet of block `n - 1`, the grandparent slot that of block
`n - 2`, each absent when that height does not exist. -/
def windowInv (block_db : Nat → Block) (n : Nat)
    (p g : Option (Finset Address)) : Prop :=
  p = (if n = 0 then none else some (block_address_set (block_db (n - 1)))) ∧
  g = (if n ≤ 1 then none else some (block_address_set (block_db (n - 2))))

/-- A snapshot satisfies the generation-window invariant. -/
def snapGood (block_db : Nat → Block) (s : Snap) : Prop :=
  windowInv block_db s.height s.parentSA s.grandparentSA

theorem UINT64_MOD_pos : 0 < UINT64_MOD := by norm_num [UINT64_MOD]

theorem txSum_cons (block_db : Nat → Block) (start len : Nat) :
    txSum block_db start (len + 1) =
      (block_db start).transactions.length + txSum block_db (start + 1) len := by
  simp [txSum, List.range'_succ]

theorem gasSum_cons (block_db : Nat → Block) (start len : Nat) :
    gasSum block_db start (len + 1) =
      (block_db start).header.gas_used + gasSum block_db (start + 1) len := by
  simp [gasSum, List.range'_succ]

/-- The loop's exit height is at least its entry height. -/
theorem runloopAux_last_ge (env : Env) (block_db : Nat → Block)
    (stop : Nat → Bool) (end_block_num : Nat) (tracing : Bool) :
    ∀ fuel bn pid p g ntxs gas snaps st,
    bn ≤ (runloopAux env block_db stop end_block_num tracing
        fuel bn pid p g ntxs gas snaps st).lastBlockNum := by
  intro fuel
  induction fuel with
  | zero =>
      intro bn pid p g ntxs gas snaps st
      simp only [runloopAux]
      exact Nat.le_refl bn
  | succ fuel ih =>
      intro bn pid p g ntxs gas snaps st
      by_cases h : bn ≤ end_block_num ∧ stop bn = false
      · simp only [runloopAux, if_pos h]
        rcases hp : process_monad_block env (block_db bn)
            (block_db bn).header.number pid tracing g p st with ⟨r, st1⟩
        cases r with
        | error e =>
            simp only [hp]
            exact Nat.le_refl bn
        | ok v =>
            simp only [hp]
            exact le_trans (Nat.le_succ bn) (ih (bn + 1) _ _ _ _ _ _ _)
      · simp only [runloopAux, if_neg h]
        exact Nat.le_refl bn

/-- On normal termination the accumulated `uint64_t` counters equal the
wrapped sums of the processed blocks' transaction counts and gas. -/
theorem runloopAux_counts (env : Env) (block_db : Nat → Block)
    (stop : Nat → Bool) (end_block_num : Nat) (tracing : Bool) :
    ∀ fuel bn pid p g ntxs gas snaps st t gtot,
    ntxs < UINT64_MOD → gas < UINT64_MOD →
    (runloopAux env block_db stop end_block_num tracing
        fuel bn pid p g ntxs gas snaps st).res = .ok (t, gtot) →
    t = (ntxs + txSum block_db bn
          ((runloopAux env block_db stop end_block_num tracing
              fuel bn pid p g ntxs gas snaps st).lastBlockNum - bn)) % UINT64_MOD ∧
    gtot = (gas + gasSum block_db bn
          ((runloopAux env block_db stop end_block_num tracing
              fuel bn pid p g ntxs gas snaps st).lastBlockNum - bn)) % UINT64_MOD := by
  intro fuel
  induction fuel with
  | zero =>
      intro bn pid p g ntxs gas snaps st t gtot hn hg hres
      simp only [runloopAux] at hres ⊢
      injection hres with h1
      injection h1 with h1 h2
      subst h1
      subst h2
      simp [txSum, gasSum, Nat.mod_eq_of_lt hn, Nat.mod_eq_of_lt hg]
  | succ fuel ih =>
      intro bn pid p g ntxs gas snaps st t gtot hn hg hres
      by_cases h : bn ≤ end_block_num ∧ stop bn = false
      · simp only [runloopAux, if_pos h] at hres ⊢
        rcases hp : process_monad_block env (block_db bn)
            (block_db bn).header.number pid tracing g p st with ⟨r, st1⟩
        cases r with
        | error e =>
            rw [hp] at hres
            simp at hres
        | ok v =>
            rw [hp] at hres
            simp only [hp]
            have hlast := runloopAux_last_ge env block_db stop end_block_num
              tracing fuel (bn + 1)
              (block_db bn).header.number (some v.2) p
              ((ntxs + (block_db bn).transactions.length) % UINT64_MOD)
              ((gas + (block_db bn).header.gas_used) % UINT64_MOD)
              (snaps ++ [⟨bn, p, g⟩]) st1
            obtain ⟨ht, hg2⟩ := ih (bn + 1) (block_db bn).header.number
              (some v.2) p _ _ (snaps ++ [⟨bn, p, g⟩]) st1 t gtot
              (Nat.mod_lt _ UINT64_MOD_pos) (Nat.mod_lt _ UINT64_MOD_pos) hres
            set L := (runloopAux env block_db stop end_block_num tracing fuel (bn + 1)
              (block_db bn).header.number (some v.2) p
              ((ntxs + (block_db bn).transactions.length) % UINT64_MOD)
              ((gas + (block_db bn).header.gas_used) % UINT64_MOD)
              (snaps ++ [⟨bn, p, g⟩]) st1).lastBlockNum with hL
            have hrange : L - bn = (L - (bn + 1)) + 1 := by omega
            constructor
            · rw [ht, hrange, txSum_cons, Nat.mod_add_mod, Nat.add_assoc]
            · rw [hg2, hrange, gasSum_cons, Nat.mod_add_mod, Nat.add_assoc]
      · simp only [runloopAux, if_neg h] at hres ⊢
        injection hres with h1
        injection h1 with h1 h2
        subst h1
        subst h2
        simp [txSum, gasSum, Nat.mod_eq_of_lt hn, Nat.mod_eq_of_lt hg]

/-- The generation-window invariant is preserved by the loop's single
`advance` transition (grandparent := parent, parent := the just-built
set), so every snapshot of a run whose entry window satisfies it does. -/
theorem runloopAux_snaps (env : Env) (block_db : Nat → Block)
    (stop : Nat → Bool) (end_block_num : Nat) (tracing : Bool) :
    ∀ fuel bn pid p g ntxs gas snaps st,
    windowInv block_db bn p g →
    (∀ s ∈ snaps, snapGood block_db s) →
    ∀ s ∈ (runloopAux env block_db stop end_block_num tracing
        fuel bn pid p g ntxs gas snaps st).snaps, snapGood block_db s := by
  intro fuel
  induction fuel with
  | zero =>
      intro bn pid p g ntxs gas snaps st hw hs
      simp only [runloopAux]
      exact hs
  | succ fuel ih =>
      intro bn pid p g ntxs gas snaps st hw hs
      have hs1 : ∀ s ∈ snaps ++ [(⟨bn, p, g⟩ : Snap)], snapGood block_db s := by
        intro s hmem
        rcases List.mem_append.mp hmem with hmem | hmem
        · exact hs s hmem
        · rw [List.mem_singleton.mp hmem]
          exact hw
      by_cases h : bn ≤ end_block_num ∧ stop bn = false
      · simp only [runloopAux, if_pos h]
        rcases hp : process_monad_block env (block_db bn)
            (block_db bn).header.number pid tracing g p st with ⟨r, st1⟩
        cases r with
        | error e =>
            simp only [hp]
            exact hs1
        | ok v =>
            simp only [hp]
            have hv2 : v.2 = block_address_set (block_db bn) :=
              (process_ok_shape hp).2.1
            refine ih (bn + 1) _ _ _ _ _ _ _ ?_ hs1
            obtain ⟨hwp, hwg⟩ := hw
            constructor
            · rw [hv2]
              simp
            · rcases Nat.eq_zero_or_pos bn with hbn | hbn
              · subst hbn
                rw [hwp]
                simp
              · rw [hwp]
                have h1 : ¬ bn = 0 := by omega
                have h2 : ¬ bn + 1 ≤ 1 := by omega
                simp only [if_neg h1, if_neg h2]
                have h3 : bn + 1 - 2 = bn - 1 := by omega
                rw [h3]
      · simp only [runloopAux, if_neg h]
        exact hs

/-- Every snapshot height is bounded by the loop's exit height: once a
block fails, no later block is dispatched. -/
theorem runloopAux_snaps_le (env : Env) (block_db : Nat → Block)
    (stop : Nat → Bool) (end_block_num : Nat) (tracing : Bool) :
    ∀ fuel bn pid p g ntxs gas snaps st,
    (∀ s ∈ snaps, s.height < bn) →
    ∀ s ∈ (runloopAux env block_db stop end_block_num tracing
        fuel bn pid p g ntxs gas snaps st).snaps,
      s.height ≤ (runloopAux env block_db stop end_block_num tracing
        fuel bn pid p g ntxs gas snaps st).lastBlockNum := by
  intro fuel
  induction fuel with
  | zero =>
      intro bn pid p g ntxs gas snaps st hs
      simp only [runloopAux]
      intro s hmem
      exact le_of_lt (hs s hmem)
  | succ fuel ih =>
      intro bn pid p g ntxs gas snaps st hs
      have hs1 : ∀ s ∈ snaps ++ [(⟨bn, p, g⟩ : Snap)], s.height < bn + 1 := by
        intro s hmem
        rcases List.mem_append.mp hmem with hmem | hmem
        · exact Nat.lt_succ_of_lt (hs s hmem)
        · rw [List.mem_singleton.mp hmem]
          exact Nat.lt_succ_self bn
      by_cases h : bn ≤ end_block_num ∧ stop bn = false
      · simp only [runloopAux, if_pos h]
        rcases hp : process_monad_block env (block_db bn)
            (block_db bn).header.number pid tracing g p st with ⟨r, st1⟩
        cases r with
        | error e =>
            simp only [hp]
            intro s hmem
            exact Nat.lt_succ_iff.mp (hs1 s hmem)
        | ok v =>
            simp only [hp]
            exact ih (bn + 1) _ _ _ _ _ _ _ hs1
      · simp only [runloopAux, if_neg h]
        intro s hmem
        exact le_of_lt (hs s hmem)

/-- When the loop result is an error, it is exactly an error returned by
`process_monad_block` on the block at the exit height, identified by that
block's content-derived id. -/
theorem runloopAux_error (env : Env) (block_db : Nat → Block)
    (stop : Nat → Bool) (end_block_num : Nat) (tracing : Bool) :
    ∀ fuel bn pid p g ntxs gas snaps st e,
    (runloopAux env block_db stop end_block_num tracing
        fuel bn pid p g ntxs gas snaps st).res = .error e →
    ∃ pid2 p2 g2 st2 st3,
      process_monad_block env
        (block_db (runloopAux env block_db stop end_block_num tracing
            fuel bn pid p g ntxs gas snaps st).lastBlockNum)
        (blockIdOf (block_db (runloopAux env block_db stop end_block_num tracing
            fuel bn pid p g ntxs gas snaps st).lastBlockNum))
        pid2 tracing g2 p2 st2 = (.error e, st3) := by
  intro fuel
  induction fuel with
  | zero =>
      intro bn pid p g ntxs gas snaps st e hres
      simp only [runloopAux] at hres
      cases hres
  | succ fuel ih =>
      intro bn pid p g ntxs gas snaps st e hres
      by_cases h : bn ≤ end_block_num ∧ stop bn = false
      · simp only [runloopAux, if_pos h] at hres ⊢
        rcases hp : process_monad_block env (block_db bn)
            (block_db bn).header.number pid tracing g p st with ⟨r, st1⟩
        cases r with
        | error e2 =>
            rw [hp] at hres
            simp only [] at hres
            injection hres with he
            cases he
            exact ⟨pid, p, g, st, st1, hp⟩
        | ok v =>
            rw [hp] at hres
            simp only [hp]
            exact ih (bn + 1) _ _ _ _ _ _ _ _ hres
      · simp only [runloopAux, if_neg h] at hres
        cases hres

/-- Commit and finalize marks accumulated by the loop: every commit
record beyond the initial state carries `block_id = header.number`, and
every finalize pair beyond the initial state pairs a height with that
same height as id. -/
theorem runloopAux_marks (env : Env) (block_db : Nat → Block)
    (stop : Nat → Bool) (end_block_num : Nat) (tracing : Bool)
    (st0 : ProcState) :
    ∀ fuel bn pid p g ntxs gas snaps st,
    (∀ c ∈ st.db.commits, c ∈ st0.db.commits ∨ c.block_id = c.header.number) →
    (∀ q ∈ st.db.finalizes, q ∈ st0.db.finalizes ∨ q.2 = q.1) →
    (∀ c ∈ (runloopAux env block_db stop end_block_num tracing
        fuel bn pid p g ntxs gas snaps st).st.db.commits,
      c ∈ st0.db.commits ∨ c.block_id = c.header.number) ∧
    (∀ q ∈ (runloopAux env block_db stop end_block_num tracing
        fuel bn pid p g ntxs gas snaps st).st.db.finalizes,
      q ∈ st0.db.finalizes ∨ q.2 = q.1) := by
  intro fuel
  induction fuel with
  | zero =>
      intro bn pid p g ntxs gas snaps st hc hf
      simp only [runloopAux]
      exact ⟨hc, hf⟩
  | succ fuel ih =>
      intro bn pid p g ntxs gas snaps st hc hf
      by_cases h : bn ≤ end_block_num ∧ stop bn = false
      · simp only [runloopAux, if_pos h]
        rcases hp : process_monad_block env (block_db bn)
            (block_db bn).header.number pid tracing g p st with ⟨r, st1⟩
        have hc1 : ∀ c ∈ st1.db.commits,
            c ∈ st0.db.commits ∨ c.block_id = c.header.number := by
          intro c hmem
          rcases process_commits hp c hmem with hmem | ⟨hid, hnum⟩
          · exact hc c hmem
          · exact Or.inr (hid.trans hnum.symm)
        cases r with
        | error e =>
            simp only [hp]
            refine ⟨hc1, ?_⟩
            intro q hq
            rw [(process_error_no_final hp).1] at hq
            exact hf q hq
        | ok v =>
            simp only [hp]
            have hf1 : ∀ q ∈ st1.db.finalizes,
                q ∈ st0.db.finalizes ∨ q.2 = q.1 := by
              intro q hq
              rw [(process_ok_shape hp).2.2.1] at hq
              rcases List.mem_append.mp hq with hq | hq
              · exact hf q hq
              · rw [List.mem_singleton.mp hq]
                exact Or.inr rfl
            exact ih (bn + 1) _ _ _ _ _ _ _ hc1 hf1
      · simp only [runloopAux, if_neg h]
        exact ⟨hc, hf⟩

/-! ## Concrete fixtures -/

/-- Is an `Except` value a success? -/
def exceptIsOk {ε α : Type} : Except ε α → Bool
  | .ok _ => true
  | .error _ => false

/-- Index of the first occurrence of an event in a trace (the trace's
length when absent). -/
def firstIdx (tr : List Event) (e : Event) : Nat :=
  match tr with
  | [] => 0
  | a :: rest => if a = e then 0 else firstIdx rest e + 1

/-- A concrete well-behaved environment: validators accept everything,
execution yields one receipt per sender, reads are simple functions of
the store state. -/
def env0 : Env where
  static_validate_header := fun _ => .ok ()
  static_validate_block := fun _ => .ok ()
  static_validate_monad_body := fun _ _ => .ok ()
  header_hash := fun h => h.number + 2 * h.parent_hash + 3 * h.state_root + 1
  read_eth_header := fun db =>
    ⟨(db.scope.map Prod.fst).getD 0, 0, 0, none, 0, db.commits.length⟩
  execute_block := fun _ s _ _ _ _ _ _ => .ok (s.map (fun _ => 0))
  validate_output_header := fun _ _ => .ok ()

/-- Initial state: empty store, buffer and trace. -/
def pst0 : ProcState := ⟨⟨none, [], [], []⟩, [], []⟩

/-- A simple block at height `n` with the given gas and transactions. -/
def blk (n gas : Nat) (txs : List Transaction) : Block :=
  ⟨⟨n, 0, 0, none, gas, 0⟩, txs, [], []⟩

/-- A concrete archive: every block has two transactions with recoverable
senders, the first carrying one recoverable and one unrecoverable
authority. -/
def bdb0 : Nat → Block := fun n =>
  blk n (10 * n + 5) [⟨some (n + 1), [some (100 + n), none], 0⟩, ⟨some 7, [], 1⟩]

/-- A block whose second transaction's sender fails to recover. -/
def blkMiss : Block := blk 5 0 [⟨some 3, [], 0⟩, ⟨none, [], 1⟩, ⟨some 4, [], 2⟩]

/-! ## Claims -/

/-- C1: For every block in which some transaction's sender fails to
recover, `process_monad_block` returns an error before any execution or
state-store commit — the store and the block-hash buffer in the final
state are exactly the input ones, so no commit occurs and no partial
receipts are produced — and whenever the static header and block
validations pass (the stages preceding recovery), the returned error is
precisely `TransactionError::MissingSender`. -/
theorem C1_missing_sender_aborts_block (env : Env) (block : Block)
    (block_id parent_block_id : BlockId) (tracing : Bool)
    (g p : Option (Finset Address)) (st : ProcState)
    (r : Except Err (Block × Finset Address)) (st1 : ProcState)
    (h : process_monad_block env block block_id parent_block_id tracing g p st
        = (r, st1))
    (hm : ∃ tx ∈ block.transactions, tx.sender = none) :
    (∃ e, r = Except.error e) ∧ st1.db = st.db ∧ st1.buf = st.buf ∧
    (env.static_validate_header block.header = .ok () →
     env.static_validate_block block = .ok () →
     r = .error .missingSender) :=
  process_pre_exec_error_db h hm

theorem C1_witness :
    (∃ tx ∈ blkMiss.transactions, tx.sender = none) ∧
    (process_monad_block env0 blkMiss 5 0 false none none pst0).1
      = .error .missingSender ∧
    (process_monad_block env0 blkMiss 5 0 false none none pst0).2.db
      = pst0.db := by
  have h := C1_missing_sender_aborts_block env0 blkMiss 5 0 false none none pst0
    (process_monad_block env0 blkMiss 5 0 false none none pst0).1
    (process_monad_block env0 blkMiss 5 0 false none none pst0).2
    rfl ⟨⟨none, [], 1⟩, by decide, rfl⟩
  exact ⟨⟨⟨none, [], 1⟩, by decide, rfl⟩, h.2.2.2 rfl rfl, h.2.1⟩

/-- C2 counterexample: in a concrete successful pipeline run the trace is
exactly `processTraceOk`, in which sender recovery occurs strictly before
the parent-hash overwrite (each event occurring once): the overwrite is
not performed "before any recovery or execution work" as the claim
states — it happens after recovery (and before execution). -/
theorem C2_counterexample :
    (process_monad_block env0 (bdb0 1) 1 0 false none none pst0).2.trace
      = processTraceOk ∧
    firstIdx processTraceOk .recoverSenders
      < firstIdx processTraceOk .overwriteParentHash ∧
    firstIdx processTraceOk .overwriteParentHash
      < firstIdx processTraceOk .executeBlock := by decide

/-- C2 (amended): after sender/authority recovery and body validation but
before execution, the pipeline unconditionally replaces the block's
nominal parent-hash field with the hash recomputed from the previously
committed header read from the state store; consequently a block whose
declared parent-hash field is wrong (and which the static validators do
not distinguish from the correct one) is processed identically and
proceeds, and on success the executed block's parent hash is the
recomputed one. -/
theorem C2_parent_hash_overwrite (env : Env) (block : Block) (y : Hash)
    (block_id parent_block_id : BlockId) (tracing : Bool)
    (g p : Option (Finset Address)) (st : ProcState)
    (hvh : env.static_validate_header { block.header with parent_hash := y }
        = env.static_validate_header block.header)
    (hvb : env.static_validate_block
        { block with header := { block.header with parent_hash := y } }
        = env.static_validate_block block) :
    process_monad_block env
        { block with header := { block.header with parent_hash := y } }
        block_id parent_block_id tracing g p st
      = process_monad_block env block block_id parent_block_id tracing g p st ∧
    (∀ v st1,
      process_monad_block env block block_id parent_block_id tracing g p st
        = (.ok v, st1) →
      v.1.header.parent_hash
        = recomputed_parent_hash env st.db block.header.number parent_block_id) := by
  constructor
  · simp only [process_monad_block]
    rw [hvh, hvb]
    rfl
  · intro v st1 h
    rw [(process_ok_shape h).1]
    rfl

theorem C2_witness :
    process_monad_block env0
        { bdb0 1 with header := { (bdb0 1).header with parent_hash := 999 } }
        1 0 false none none pst0
      = process_monad_block env0 (bdb0 1) 1 0 false none none pst0 :=
  (C2_parent_hash_overwrite env0 (bdb0 1) 999 1 0 false none none pst0 rfl rfl).1

/-- C3: the store finalize call, the verified-watermark advance and the
block-hash buffer insertion happen only on the success path — on any
failure none of the three happen — and on success they happen after the
post-commit header verification in the trace order; moreover whenever
every stage up to the post-commit verification succeeds and the
verification itself fails, the pipeline returns exactly the mismatch
error. -/
theorem C3_finalize_after_verification (env : Env) (block : Block)
    (block_id parent_block_id : BlockId) (tracing : Bool)
    (g p : Option (Finset Address)) (st : ProcState)
    (r : Except Err (Block × Finset Address)) (st1 : ProcState)
    (h : process_monad_block env block block_id parent_block_id tracing g p st
        = (r, st1)) :
    (exceptIsOk r = false →
      st1.db.finalizes = st.db.finalizes ∧
      st1.db.verifiedUpdates = st.db.verifiedUpdates ∧
      st1.buf = st.buf) ∧
    (exceptIsOk r = true →
      st1.db.finalizes = st.db.finalizes ++ [(block.header.number, block_id)] ∧
      st1.db.verifiedUpdates = st.db.verifiedUpdates ++ [block.header.number] ∧
      (∃ hsh, st1.buf = st.buf ++ [(block.header.number, hsh)]) ∧
      st1.trace = st.trace ++ processTraceOk ∧
      firstIdx processTraceOk .validateOutput
        < firstIdx processTraceOk .finalizeBlock ∧
      firstIdx processTraceOk .validateOutput
        < firstIdx processTraceOk .updateVerified ∧
      firstIdx processTraceOk .validateOutput
        < firstIdx processTraceOk .setBufHash) ∧
    (∀ senders receipts e,
      env.static_validate_header block.header = .ok () →
      env.static_validate_block block = .ok () →
      build_senders (recover_senders block.transactions) = .ok senders →
      env.static_validate_monad_body senders block.transactions = .ok () →
      env.execute_block (executed_block env block parent_block_id st.db) senders
        (recover_authorities block.transactions) g p
        (build_address_set senders (recover_authorities block.transactions))
        (scopedDb st.db block.header.number parent_block_id) st.buf
        = .ok receipts →
      env.validate_output_header (executed_header env block parent_block_id st.db)
        (output_header_of env block block_id parent_block_id senders receipts st.db)
        = .error e →
      r = .error e) := by
  refine ⟨?_, ?_, ?_⟩
  · intro hok
    cases hr : r with
    | ok v =>
        rw [hr] at hok
        simp [exceptIsOk] at hok
    | error e =>
        rw [hr] at h
        exact process_error_no_final h
  · intro hok
    cases hr : r with
    | error e =>
        rw [hr] at hok
        simp [exceptIsOk] at hok
    | ok v =>
        rw [hr] at h
        have hs := process_ok_shape h
        exact ⟨hs.2.2.1, hs.2.2.2.1, hs.2.2.2.2.1, hs.2.2.2.2.2.2,
          by decide, by decide, by decide⟩
  · intro senders receipts e h1 h2 h3 h4 h5 h6
    have hres := process_output_mismatch_result tracing h1 h2 h3 h4 h5 h6
    rw [h] at hres
    exact hres

theorem C3_witness :
    exceptIsOk (process_monad_block env0 (bdb0 1) 1 0 false none none pst0).1
      = true ∧
    (process_monad_block env0 (bdb0 1) 1 0 false none none pst0).2.db.finalizes
      = pst0.db.finalizes ++ [((bdb0 1).header.number, 1)] ∧
    (process_monad_block env0 (bdb0 1) 1 0 false none none pst0).2.db.verifiedUpdates
      = pst0.db.verifiedUpdates ++ [(bdb0 1).header.number] := by
  have h := (C3_finalize_after_verification env0 (bdb0 1) 1 0 false none none pst0
    (process_monad_block env0 (bdb0 1) 1 0 false none none pst0).1
    (process_monad_block env0 (bdb0 1) 1 0 false none none pst0).2 rfl).2.1
    (by decide)
  exact ⟨by decide, h.1, h.2.1⟩

/-- C4: on normal termination (end height reached or stop observed:
`res` is a success), the returned cumulative transaction count and gas
equal the sums over the processed heights (`finalized_in` up to the exit
height) of each archive block's transaction count and header `gas_used`,
as wrapped `uint64_t` values, hence exactly whenever the mathematical
sums are representable. -/
theorem C4_cumulative_totals (env : Env) (block_db : Nat → Block)
    (stop : Nat → Bool) (finalized_in end_block_num : Nat) (tracing : Bool)
    (st0 : ProcState) (t gtot : Nat)
    (hres : (runloop_monad_ethblocks env block_db stop finalized_in
        end_block_num tracing st0).1.res = .ok (t, gtot)) :
    t = txSum block_db finalized_in
        ((runloop_monad_ethblocks env block_db stop finalized_in end_block_num
            tracing st0).1.lastBlockNum - finalized_in) % UINT64_MOD ∧
    gtot = gasSum block_db finalized_in
        ((runloop_monad_ethblocks env block_db stop finalized_in end_block_num
            tracing st0).1.lastBlockNum - finalized_in) % UINT64_MOD ∧
    (txSum block_db finalized_in
        ((runloop_monad_ethblocks env block_db stop finalized_in end_block_num
            tracing st0).1.lastBlockNum - finalized_in) < UINT64_MOD →
      t = txSum block_db finalized_in
        ((runloop_monad_ethblocks env block_db stop finalized_in end_block_num
            tracing st0).1.lastBlockNum - finalized_in)) ∧
    (gasSum block_db finalized_in
        ((runloop_monad_ethblocks env block_db stop finalized_in end_block_num
            tracing st0).1.lastBlockNum - finalized_in) < UINT64_MOD →
      gtot = gasSum block_db finalized_in
        ((runloop_monad_ethblocks env block_db stop finalized_in end_block_num
            tracing st0).1.lastBlockNum - finalized_in)) := by
  simp only [runloop_monad_ethblocks] at hres ⊢
  obtain ⟨ht, hg⟩ := runloopAux_counts env block_db stop end_block_num tracing
    (end_block_num + 1 - finalized_in) finalized_in 0
    (seedWindow block_db finalized_in).1 (seedWindow block_db finalized_in).2
    0 0 [] st0 t gtot UINT64_MOD_pos UINT64_MOD_pos hres
  rw [Nat.zero_add] at ht hg
  refine ⟨ht, hg, ?_, ?_⟩
  · intro hlt
    rw [ht, Nat.mod_eq_of_lt hlt]
  · intro hlt
    rw [hg, Nat.mod_eq_of_lt hlt]

theorem C4_witness :
    (runloop_monad_ethblocks env0 bdb0 (fun _ => false) 0 2 false pst0).1.res
      = .ok (6, 45) ∧
    (6 : Nat) = txSum bdb0 0
        ((runloop_monad_ethblocks env0 bdb0 (fun _ => false) 0 2 false
            pst0).1.lastBlockNum - 0) ∧
    (45 : Nat) = gasSum bdb0 0
        ((runloop_monad_ethblocks env0 bdb0 (fun _ => false) 0 2 false
            pst0).1.lastBlockNum - 0) := by
  have h := C4_cumulative_totals env0 bdb0 (fun _ => false) 0 2 false pst0 6 45
    (by decide)
  exact ⟨by decide, h.2.2.1 (by decide), h.2.2.2 (by decide)⟩

/-- C5: in a run from height 0, every loop iteration's snapshot satisfies
the generation-window invariant: when block N is dispatched, the parent
slot holds the AddressSet of block N−1 and the grandparent slot that of
block N−2, each absent when that height does not exist (N = 0, resp.
N ≤ 1); the invariant is maintained by the loop's single advance
transition. -/
theorem C5_window_invariant (env : Env) (block_db : Nat → Block)
    (stop : Nat → Bool) (end_block_num : Nat) (tracing : Bool)
    (st0 : ProcState) (s : Snap)
    (hmem : s ∈ (runloop_monad_ethblocks env block_db stop 0 end_block_num
        tracing st0).1.snaps) :
    s.parentSA = (if s.height = 0 then none
        else some (block_address_set (block_db (s.height - 1)))) ∧
    s.grandparentSA = (if s.height ≤ 1 then none
        else some (block_address_set (block_db (s.height - 2)))) := by
  simp only [runloop_monad_ethblocks] at hmem
  exact runloopAux_snaps env block_db stop end_block_num tracing
    (end_block_num + 1 - 0) 0 0
    (seedWindow block_db 0).1 (seedWindow block_db 0).2 0 0 [] st0
    ⟨by simp [seedWindow], by simp [seedWindow]⟩
    (fun s2 hs2 => absurd hs2 (List.not_mem_nil s2)) s hmem

theorem C5_witness :
    (⟨2, some (block_address_set (bdb0 1)),
        some (block_address_set (bdb0 0))⟩ : Snap)
      ∈ (runloop_monad_ethblocks env0 bdb0 (fun _ => false) 0 2 false
          pst0).1.snaps ∧
    some (block_address_set (bdb0 1))
      = (if (2 : Nat) = 0 then none
         else some (block_address_set (bdb0 (2 - 1)))) := by
  refine ⟨by decide, ?_⟩
  exact (C5_window_invariant env0 bdb0 (fun _ => false) 2 false pst0
    ⟨2, some (block_address_set (bdb0 1)), some (block_address_set (bdb0 0))⟩
    (by decide)).1

/-- C6 counterexample: a continuous run from height 0 carries
grandparent = block 0's AddressSet into the processing of block 2, but a
restart at height H = 2 seeds an empty grandparent slot (the seeding
condition `block_num > 2` skips block 0), so the seeded window differs
from the continuous run's window. -/
theorem C6_counterexample :
    (⟨2, some (block_address_set (bdb0 1)),
        some (block_address_set (bdb0 0))⟩ : Snap)
      ∈ (runloop_monad_ethblocks env0 bdb0 (fun _ => false) 0 2 false
          pst0).1.snaps ∧
    (seedWindow bdb0 2).2 = none ∧
    some (block_address_set (bdb0 0)) ≠ none := by decide

/-- C6 (amended): for every restart height H with H ≥ 3, the startup
seeding from blocks H−1 and H−2 produces exactly the parent and
grandparent AddressSets that a continuous run from height 0 carries into
the processing of block H (restart heights 1 and 2 are excluded: there
the seeding leaves an existing ancestor's slot empty). -/
theorem C6_seed_matches_continuous (env : Env) (block_db : Nat → Block)
    (stop : Nat → Bool) (end_block_num H : Nat) (tracing : Bool)
    (st0 : ProcState) (p g : Option (Finset Address))
    (hH : 3 ≤ H)
    (hmem : (⟨H, p, g⟩ : Snap) ∈ (runloop_monad_ethblocks env block_db stop 0
        end_block_num tracing st0).1.snaps) :
    seedWindow block_db H = (p, g) := by
  simp only [runloop_monad_ethblocks] at hmem
  obtain ⟨hp, hg⟩ := runloopAux_snaps env block_db stop end_block_num tracing
    (end_block_num + 1 - 0) 0 0
    (seedWindow block_db 0).1 (seedWindow block_db 0).2 0 0 [] st0
    ⟨by simp [seedWindow], by simp [seedWindow]⟩
    (fun s2 hs2 => absurd hs2 (List.not_mem_nil s2)) ⟨H, p, g⟩ hmem
  have h1 : ¬ H = 0 := by omega
  have h2 : ¬ H ≤ 1 := by omega
  simp only [Snap.parentSA] at hp
  simp only [Snap.grandparentSA] at hg
  rw [hp, hg]
  simp only [if_neg h1, if_neg h2]
  simp [seedWindow, show 1 < H by omega, show 2 < H by omega]

theorem C6_witness :
    (⟨3, some (block_address_set (bdb0 2)),
        some (block_address_set (bdb0 1))⟩ : Snap)
      ∈ (runloop_monad_ethblocks env0 bdb0 (fun _ => false) 0 3 false
          pst0).1.snaps ∧
    seedWindow bdb0 3
      = (some (block_address_set (bdb0 2)), some (block_address_set (bdb0 1))) := by
  refine ⟨by decide, ?_⟩
  exact C6_seed_matches_continuous env0 bdb0 (fun _ => false) 3 3 false pst0
    (some (block_address_set (bdb0 2))) (some (block_address_set (bdb0 1)))
    (by omega) (by decide)

/-- C7: when the loop result is an error, the returned
`finalized_block_num` in-out parameter equals its input value (the
finalized height is not advanced), no block beyond the exit height was
dispatched, and the returned error is exactly an error produced by
`process_monad_block` on the block at the exit height. -/
theorem C7_error_stops_loop (env : Env) (block_db : Nat → Block)
    (stop : Nat → Bool) (finalized_in end_block_num : Nat) (tracing : Bool)
    (st0 : ProcState) (e : Err)
    (hres : (runloop_monad_ethblocks env block_db stop finalized_in
        end_block_num tracing st0).1.res = .error e) :
    (runloop_monad_ethblocks env block_db stop finalized_in end_block_num
        tracing st0).2 = finalized_in ∧
    (∀ s ∈ (runloop_monad_ethblocks env block_db stop finalized_in
        end_block_num tracing st0).1.snaps,
      s.height ≤ (runloop_monad_ethblocks env block_db stop finalized_in
        end_block_num tracing st0).1.lastBlockNum) ∧
    (∃ pid2 p2 g2 st2 st3,
      process_monad_block env
        (block_db ((runloop_monad_ethblocks env block_db stop finalized_in
            end_block_num tracing st0).1.lastBlockNum))
        (blockIdOf (block_db ((runloop_monad_ethblocks env block_db stop
            finalized_in end_block_num tracing st0).1.lastBlockNum)))
        pid2 tracing g2 p2 st2 = (.error e, st3)) := by
  refine ⟨?_, ?_, ?_⟩
  · simp only [runloop_monad_ethblocks] at hres ⊢
    simp only [hres]
  · simp only [runloop_monad_ethblocks]
    exact runloopAux_snaps_le env block_db stop end_block_num tracing
      (end_block_num + 1 - finalized_in) finalized_in 0
      (seedWindow block_db finalized_in).1 (seedWindow block_db finalized_in).2
      0 0 [] st0 (fun s2 hs2 => absurd hs2 (List.not_mem_nil s2))
  · simp only [runloop_monad_ethblocks] at hres ⊢
    exact runloopAux_error env block_db stop end_block_num tracing
      (end_block_num + 1 - finalized_in) finalized_in 0
      (seedWindow block_db finalized_in).1 (seedWindow block_db finalized_in).2
      0 0 [] st0 e hres

/-- An archive whose block 1 contains a transaction with an
unrecoverable sender. -/
def bdbMiss : Nat → Block := fun n =>
  if n = 1 then blk 1 7 [⟨none, [], 0⟩] else bdb0 n

theorem C7_witness :
    (runloop_monad_ethblocks env0 bdbMiss (fun _ => false) 0 5 false pst0).1.res
      = .error .missingSender ∧
    (runloop_monad_ethblocks env0 bdbMiss (fun _ => false) 0 5 false pst0).2
      = 0 := by
  refine ⟨by decide, ?_⟩
  exact (C7_error_stops_loop env0 bdbMiss (fun _ => false) 0 5 false pst0
    .missingSender (by decide)).1

/-- C8: for two blocks whose multisets of recoverable senders and of
recoverable authorities agree (e.g. the same transactions in a different
order), both processed successfully (so every sender recovers), the
AddressSets built during processing are identical: membership depends
only on which addresses occur, not on insertion or transaction order. -/
theorem C8_address_set_order_invariant (env1 env2 : Env) (b1 b2 : Block)
    (id1 id2 pid1 pid2 : BlockId) (tr1 tr2 : Bool)
    (g1 p1 g2 p2 : Option (Finset Address)) (st1 st2 : ProcState)
    (v1 v2 : Block × Finset Address) (st1o st2o : ProcState)
    (h1 : process_monad_block env1 b1 id1 pid1 tr1 g1 p1 st1 = (.ok v1, st1o))
    (h2 : process_monad_block env2 b2 id2 pid2 tr2 g2 p2 st2 = (.ok v2, st2o))
    (hs : List.Perm (b1.transactions.filterMap (fun tx => tx.sender))
        (b2.transactions.filterMap (fun tx => tx.sender)))
    (ha : List.Perm
        ((b1.transactions.map (fun tx => tx.authorities)).flatten.filterMap id)
        ((b2.transactions.map (fun tx => tx.authorities)).flatten.filterMap id)) :
    v1.2 = v2.2 := by
  have hall1 : ∀ tx ∈ b1.transactions, tx.sender ≠ none := by
    intro tx htx hnone
    obtain ⟨⟨e, he⟩, _⟩ := process_pre_exec_error_db h1 ⟨tx, htx, hnone⟩
    cases he
  have hall2 : ∀ tx ∈ b2.transactions, tx.sender ≠ none := by
    intro tx htx hnone
    obtain ⟨⟨e, he⟩, _⟩ := process_pre_exec_error_db h2 ⟨tx, htx, hnone⟩
    cases he
  rw [(process_ok_shape h1).2.1, (process_ok_shape h2).2.1]
  simp only [block_address_set, recover_authorities]
  rw [build_address_set_eq, build_address_set_eq]
  rw [← filterMap_sender_eq hall1, ← filterMap_sender_eq hall2]
  rw [List.toFinset_eq_of_perm _ _ hs, List.toFinset_eq_of_perm _ _ ha]

/-- Two blocks with the same transactions in swapped order. -/
def blkA : Block := blk 9 0 [⟨some 1, [some 10, none], 0⟩, ⟨some 2, [], 1⟩]

/-- See `blkA`. -/
def blkB : Block := blk 9 0 [⟨some 2, [], 1⟩, ⟨some 1, [some 10, none], 0⟩]

/-- Default value for reading a success payload. -/
def dfltOut : Block × Finset Address := (blk 0 0 [], ∅)

/-- Success payload of an `Except`. -/
def exceptGet {ε α : Type} (d : α) : Except ε α → α
  | .ok a => a
  | .error _ => d

theorem C8_witness :
    process_monad_block env0 blkA 9 0 false none none pst0
      = (.ok (exceptGet dfltOut
            (process_monad_block env0 blkA 9 0 false none none pst0).1),
         (process_monad_block env0 blkA 9 0 false none none pst0).2) ∧
    process_monad_block env0 blkB 9 0 false none none pst0
      = (.ok (exceptGet dfltOut
            (process_monad_block env0 blkB 9 0 false none none pst0).1),
         (process_monad_block env0 blkB 9 0 false none none pst0).2) ∧
    (exceptGet dfltOut
        (process_monad_block env0 blkA 9 0 false none none pst0).1).2
      = (exceptGet dfltOut
        (process_monad_block env0 blkB 9 0 false none none pst0).1).2 := by
  refine ⟨by decide, by decide, ?_⟩
  exact C8_address_set_order_invariant env0 env0 blkA blkB 9 9 0 0 false false
    none none none none pst0 pst0
    (exceptGet dfltOut (process_monad_block env0 blkA 9 0 false none none pst0).1)
    (exceptGet dfltOut (process_monad_block env0 blkB 9 0 false none none pst0).1)
    (process_monad_block env0 blkA 9 0 false none none pst0).2
    (process_monad_block env0 blkB 9 0 false none none pst0).2
    (by decide) (by decide) (by decide) (by decide)

/-- C9: with the archive numbering blocks by their height, the
content-derived id `bytes32_t{block.header.number}` is strictly monotonic
and injective across heights (exactly one id per height), and in any run
every commit record and every finalize call beyond the initial state
carries exactly this id for its block. -/
theorem C9_block_id (env : Env) (block_db : Nat → Block) (stop : Nat → Bool)
    (finalized_in end_block_num : Nat) (tracing : Bool) (st0 : ProcState)
    (hnum : ∀ n, (block_db n).header.number = n) :
    (∀ n m, n < m → blockIdOf (block_db n) < blockIdOf (block_db m)) ∧
    (∀ n m, blockIdOf (block_db n) = blockIdOf (block_db m) → n = m) ∧
    (∀ c ∈ (runloop_monad_ethblocks env block_db stop finalized_in
        end_block_num tracing st0).1.st.db.commits,
      c ∈ st0.db.commits ∨ c.block_id = blockIdOf (block_db c.header.number)) ∧
    (∀ q ∈ (runloop_monad_ethblocks env block_db stop finalized_in
        end_block_num tracing st0).1.st.db.finalizes,
      q ∈ st0.db.finalizes ∨ q.2 = blockIdOf (block_db q.1)) := by
  have hmarks := runloopAux_marks env block_db stop end_block_num tracing st0
    (end_block_num + 1 - finalized_in) finalized_in 0
    (seedWindow block_db finalized_in).1 (seedWindow block_db finalized_in).2
    0 0 [] st0 (fun c hc => Or.inl hc) (fun q hq => Or.inl hq)
  refine ⟨?_, ?_, ?_, ?_⟩
  · intro n m hlt
    rw [blockIdOf, blockIdOf, hnum, hnum]
    exact hlt
  · intro n m heq
    rw [blockIdOf, blockIdOf, hnum, hnum] at heq
    exact heq
  · intro c hc
    simp only [runloop_monad_ethblocks] at hc
    rcases hmarks.1 c hc with h | h
    · exact Or.inl h
    · right
      rw [blockIdOf, hnum]
      exact h
  · intro q hq
    simp only [runloop_monad_ethblocks] at hq
    rcases hmarks.2 q hq with h | h
    · exact Or.inl h
    · right
      rw [blockIdOf, hnum]
      exact h

theorem C9_witness :
    blockIdOf (bdb0 0) < blockIdOf (bdb0 1) :=
  (C9_block_id env0 bdb0 (fun _ => false) 0 2 false pst0 (fun n => rfl)).1
    0 1 (by omega)

/-- An archive whose block 1 has a single transaction whose sender fails
to recover. -/
def bdbZero : Nat → Block := fun n =>
  if n = 1 then blk 1 3 [⟨none, [], 0⟩] else bdb0 n

/-- C10: startup seeding does not abort on an unrecoverable sender — the
default-constructed zero address takes the sender's place — so for this
archive the seeded parent set at restart height 2 is exactly `{0}`,
containing the zero address, which is not among the block's actually
recovered senders; normal block processing of the same block instead
aborts with `MissingSender` (and so produces no AddressSet). -/
theorem C10_seed_inserts_zero_address :
    seedWindow bdbZero 2 = (some (block_address_set (bdbZero 1)), none) ∧
    block_address_set (bdbZero 1) = {0} ∧
    (process_monad_block env0 (bdbZero 1) 1 0 false none none pst0).1
      = .error .missingSender ∧
    (0 : Address) ∉
      ((bdbZero 1).transactions.filterMap (fun tx => tx.sender)).toFinset := by
  decide

end MonadEth

